import Mathlib

/-!
Shallow embedding of the privacy-preserving dialogue pipeline of the
backward_bot repository: pseudonym registry, key derivation, message
cipher, dialogue store, retention engine and consultation orchestrator
(src/services/encryption_service.py, src/services/claude_service.py,
src/services/data_retention_service.py, src/database/models.py).

Modelling conventions:
- datetimes are `Int` timestamps (seconds); `timedelta(days = n)` is `n * 86400`;
- byte strings and text are `String`; message bodies are a `Content` value that
  is either a plaintext string or a Fernet token (an authenticated-encryption
  token is modelled abstractly as the pair of the encrypting key and the body,
  so decryption with the wrong key, or of a non-token string, fails exactly as
  Fernet authentication does);
- PBKDF2 is modelled as an abstract deterministic function of the master
  secret, the salt and the iteration count;
- `os.urandom` salts and `uuid.uuid4` identifiers are drawn from fresh-value
  counters threaded through the database state;
- the SQLAlchemy session is a record of table contents threaded through each
  operation; a caught exception branch is modelled by the value the `except`
  handler returns.
-/

/-- A stored message body: plaintext, or a Fernet token, which we model as the
encrypting key paired with the body (AEAD abstraction). -/
inductive Content where
  | plain (s : String)
  | token (key : Nat) (body : String)
deriving DecidableEq, Repr

/-- Abstract model of `Fernet(key).decrypt`: succeeds exactly on a token
produced under the same key; any other input fails authentication. -/
def fernetDecrypt (key : Nat) : Content → Option String
  | Content.token k s => if k = key then some s else none
  | Content.plain _ => none

/-- Abstract injective-enough string digest used inside the PBKDF2 model. -/
def strHash (s : String) : Nat :=
  s.toList.foldl (fun a c => a * 256 + c.toNat) 7

/-- Abstract deterministic model of
`PBKDF2HMAC(algorithm, length=32, salt, iterations).derive(master)`. -/
def pbkdf2 (master : String) (salt : Nat) (iterations : Nat) : Nat :=
  (strHash master * 1000003 + salt) * 1000003 + iterations

/-- `str(uuid.uuid4())`, drawn from the freshness counter `n`. -/
def uuidStr (n : Nat) : String := "uuid-" ++ toString n

/-- SHA-256-of-plaintext digest stored in `DialogueMetadata.message_hash`
(`encrypt_message`, lines 233-236); modelled abstractly. -/
def sha256b64 (s : String) : String := "sha256-" ++ s

/-- Row of `user_pseudonyms` (database/models.py, `UserPseudonym`):
`user_id` is nullable (nulled by anonymization), `pseudonym_id` a UUID string. -/
structure UserPseudonym where
  user_id : Option Int
  pseudonym_id : String
deriving DecidableEq, Repr

/-- Row of `user_encryption_keys` (database/models.py, `UserEncryptionKey`):
the key itself is never stored, only its hash and the salt. -/
structure UserEncryptionKey where
  user_id : Int
  key_hash : Nat
  key_salt : Nat
deriving DecidableEq, Repr

/-- Row of `dialogue_metadata` (database/models.py, `DialogueMetadata`). -/
structure DialogueMetadata where
  pseudonym_id : String
  role : String
  message_hash : String
  timestamp : Int
  content_id : Nat
deriving DecidableEq, Repr

/-- Row of `dialogue_content` (database/models.py, `DialogueContent`). -/
structure DialogueContentRow where
  id : Nat
  encrypted_content : Content
deriving DecidableEq, Repr

/-- Row of `user_actions` (database/models.py, `UserAction`). -/
structure UserAction where
  user_id : Int
  action_type : String
  created_at : Int
deriving DecidableEq, Repr

/-- The database state threaded through every service call, with fresh-value
counters for `os.urandom` salts, `uuid.uuid4` ids and content primary keys. -/
structure DB where
  pseudonyms : List UserPseudonym
  encKeys : List UserEncryptionKey
  metas : List DialogueMetadata
  contents : List DialogueContentRow
  actions : List UserAction
  nextSalt : Nat
  nextUuid : Nat
  nextContentId : Nat
deriving DecidableEq, Repr

/-- Configuration visible to the services (config/settings.py):
`ENCRYPTION_MASTER_KEY`, `ENCRYPTION_SETTINGS`, `ANONYMIZATION_SETTINGS`,
`DIALOGUE_SETTINGS`, `DATA_RETENTION`, plus the orchestrator limits. -/
structure Config where
  masterKey : Option String
  key_derivation_iterations : Nat
  encrypt_messages_setting : Bool
  enable_pseudonymization : Bool
  max_input_chars : Nat
  max_output_chars : Nat
  max_context_messages : Nat
  message_retention_days : Nat
  inactive_user_anonymization_days : Nat
  log_retention_days : Nat
deriving DecidableEq, Repr

/-- `EncryptionService.__init__` lines 54-62: the effective `encrypt_messages`
flag is the configured setting, forced to `False` when no master key is set. -/
def service_encrypt_messages (cfg : Config) : Bool :=
  if cfg.masterKey.isNone then false else cfg.encrypt_messages_setting

/-- `EncryptionService.ensure_pseudonym` (encryption_service.py lines 64-98).
`storageError` models the session query raising inside the `try`; the
`except` handler (lines 95-98) catches it and returns `str(user_id)`. -/
def ensure_pseudonym (cfg : Config) (storageError : Bool) (user_id : Int)
    (db : DB) : String × DB :=
  if !cfg.enable_pseudonymization then (toString user_id, db)
  else if storageError then (toString user_id, db)
  else
    match db.pseudonyms.find? (fun p => p.user_id == some user_id) with
    | some p => (p.pseudonym_id, db)
    | none =>
        let newP : UserPseudonym := ⟨some user_id, uuidStr db.nextUuid⟩
        (newP.pseudonym_id,
         { db with pseudonyms := db.pseudonyms ++ [newP],
                   nextUuid := db.nextUuid + 1 })

/-- `EncryptionService._derive_encryption_key` (lines 100-192).
With no master key, `ENCRYPTION_MASTER_KEY.encode()` raises, the backup
derivation raises too, and the function returns `None` (lines 178-192).
With a master key: an unlinked or unknown pseudonym gets a temporary key from
a fresh unpersisted salt (lines 116-131); a linked user reuses the persisted
salt or creates and commits a new `UserEncryptionKey` row (lines 133-176). -/
def derive_encryption_key (cfg : Config) (pseudonym_id : String) (db : DB) :
    Option Nat × DB :=
  match cfg.masterKey with
  | none => (none, db)
  | some master =>
    match db.pseudonyms.find? (fun p => p.pseudonym_id == pseudonym_id) with
    | some p =>
      match p.user_id with
      | some uid =>
        match db.encKeys.find? (fun k => k.user_id == uid) with
        | some uk =>
            (some (pbkdf2 master uk.key_salt cfg.key_derivation_iterations), db)
        | none =>
            let salt := db.nextSalt
            let key := pbkdf2 master salt cfg.key_derivation_iterations
            (some key,
             { db with encKeys := db.encKeys ++ [⟨uid, key, salt⟩],
                       nextSalt := db.nextSalt + 1 })
      | none =>
          (some (pbkdf2 master db.nextSalt cfg.key_derivation_iterations),
           { db with nextSalt := db.nextSalt + 1 })
    | none =>
        (some (pbkdf2 master db.nextSalt cfg.key_derivation_iterations),
         { db with nextSalt := db.nextSalt + 1 })

/-- `EncryptionService.encrypt_message` (lines 194-255). Pass-through when
encryption is off or the master key is missing (lines 212-213, 217-218);
otherwise encrypts and, as a side effect, commits a `DialogueContent` row and
a `DialogueMetadata` row with role `'user'` (lines 226-248). `ts` is the
`datetime.utcnow()` drawn at line 244. -/
def encrypt_message (cfg : Config) (message : String) (pseudonym_id : String)
    (ts : Int) (db : DB) : Content × DB :=
  if !(service_encrypt_messages cfg) || cfg.masterKey.isNone then
    (Content.plain message, db)
  else
    match derive_encryption_key cfg pseudonym_id db with
    | (none, db1) => (Content.plain message, db1)
    | (some key, db1) =>
        let encrypted : Content := Content.token key message
        let contentRow : DialogueContentRow := ⟨db1.nextContentId, encrypted⟩
        let metadata : DialogueMetadata :=
          ⟨pseudonym_id, "user", sha256b64 message, ts, contentRow.id⟩
        (encrypted,
         { db1 with contents := db1.contents ++ [contentRow],
                    metas := db1.metas ++ [metadata],
                    nextContentId := db1.nextContentId + 1 })

/-- `EncryptionService.decrypt_message` (lines 257-294). Pass-through when
encryption is off or the master key is missing (lines 274-275, 280); on any
decryption exception (failed Fernet authentication) the `except` handler
returns the input `encrypted_message` unchanged (lines 292-294). -/
def decrypt_message (cfg : Config) (encrypted_message : Content)
    (pseudonym_id : String) (db : DB) : Content × DB :=
  if !(service_encrypt_messages cfg) || cfg.masterKey.isNone then
    (encrypted_message, db)
  else
    match derive_encryption_key cfg pseudonym_id db with
    | (none, db1) => (encrypted_message, db1)
    | (some key, db1) =>
        match fernetDecrypt key encrypted_message with
        | some s => (Content.plain s, db1)
        | none => (encrypted_message, db1)

/-- One element of the list returned by `get_messages_by_pseudonym`
(lines 373-378): role, decrypted content, timestamp and stored hash. -/
structure MessageOut where
  role : String
  content : Content
  timestamp : Int
  message_hash : String
deriving DecidableEq, Repr

/-- Insert into a list kept in descending `key` order (model of the SQL
`ORDER BY timestamp DESC`). -/
def insertDesc {α : Type} (key : α → Int) (m : α) : List α → List α
  | [] => [m]
  | x :: xs => if key x < key m then m :: x :: xs else x :: insertDesc key m xs

/-- Sort a list into descending `key` order. -/
def sortDesc {α : Type} (key : α → Int) : List α → List α
  | [] => []
  | x :: xs => insertDesc key x (sortDesc key xs)

/-- The per-row decryption loop of `get_messages_by_pseudonym`
(lines 345-385): for each (metadata, content) pair, decrypt the content when
the service-level encryption flag is on, and emit role/content/timestamp/hash.
`decrypt_message` never raises in the model (it catches internally), so the
skip-on-error branch (lines 382-384) is not reachable. -/
def process_rows (cfg : Config) (pseudonym_id : String) :
    List (DialogueMetadata × DialogueContentRow) → DB → List MessageOut × DB
  | [], db => ([], db)
  | (m, c) :: rest, db =>
      let step : Content × DB :=
        if service_encrypt_messages cfg then
          decrypt_message cfg c.encrypted_content pseudonym_id db
        else (c.encrypted_content, db)
      let rec0 := process_rows cfg pseudonym_id rest step.2
      (⟨m.role, step.1, m.timestamp, m.message_hash⟩ :: rec0.1, rec0.2)

/-- `EncryptionService.get_messages_by_pseudonym` (lines 296-392).
Defaults: `start_date = utcnow() - timedelta(days=30)`,
`end_date = utcnow()` (lines 318-322); the query inner-joins metadata with
content, filters on pseudonym and `timestamp.between(start, end)` (inclusive),
orders newest-first and limits (lines 327-339); each row is then decrypted. -/
def get_messages_by_pseudonym (cfg : Config) (pseudonym_id : String)
    (start_date end_date : Option Int) (limit : Nat) (now : Int) (db : DB) :
    List MessageOut × DB :=
  let start := start_date.getD (now - 30 * 86400)
  let stop := end_date.getD now
  let joined : List (DialogueMetadata × DialogueContentRow) :=
    db.metas.filterMap (fun m =>
      if m.pseudonym_id == pseudonym_id
          && decide (start ≤ m.timestamp) && decide (m.timestamp ≤ stop) then
        (db.contents.find? (fun c => c.id == m.content_id)).map (fun c => (m, c))
      else none)
  let rows := (sortDesc (fun mc => mc.1.timestamp) joined).take limit
  process_rows cfg pseudonym_id rows db

/-- `EncryptionService.delete_messages` (lines 394-439), as called by
`clear_conversation`: deletes each metadata row matching the filters together
with its content row and returns the count. -/
def delete_messages (pseudonym_filter : Option String)
    (before_date : Option Int) (db : DB) : Nat × DB :=
  let matchesRow := fun (m : DialogueMetadata) =>
    (match pseudonym_filter with
     | some pid => m.pseudonym_id == pid
     | none => true)
    && (match before_date with
        | some d => decide (m.timestamp < d)
        | none => true)
  let old := db.metas.filter matchesRow
  (old.length,
   { db with
       metas := db.metas.filter (fun m => !(matchesRow m)),
       contents := db.contents.filter
         (fun c => !(old.any (fun m => m.content_id == c.id))) })

/-- Result of the external LLM call `self.client.messages.create(**api_params)`
in `ClaudeService.get_consultation`: a successful text response, an API
exception (lines 102-106), an empty response (lines 109-111) or a response
with no text block (lines 114-118). -/
inductive LlmResult where
  | success (text : String)
  | apiError (details : String)
  | emptyResponse
  | invalidFormat
deriving DecidableEq, Repr

/-- `s.lower()` contains `sub` (Python `in` on lowered text). -/
def containsLower (s sub : String) : Bool :=
  (s.toLower.splitOn sub).length > 1

/-- `ClaudeService._handle_api_error` (claude_service.py lines 210-217). -/
def handle_api_error (error_details : String) : String :=
  if containsLower error_details "rate limit" then
    "Извините, превышен лимит запросов. Пожалуйста, подождите немного и попробуйте снова."
  else if containsLower error_details "internal server error" then
    "Технические неполадки на стороне сервиса. Пожалуйста, попробуйте позже."
  else
    "Произошла непредвиденная ошибка при обработке запроса. Приносим извинения."

/-- `ClaudeService._log_action` (lines 195-207): appends a `UserAction` row. -/
def log_action (user_id : Int) (action_type : String) (ts : Int) (db : DB) : DB :=
  { db with actions := db.actions ++ [⟨user_id, action_type, ts⟩] }

/-- `ClaudeService._save_dialogue_messages` (claude_service.py lines 138-193).
Saves the user message (role `'user'`) and then the bot response (role
`'assistant'`); when `DIALOGUE_SETTINGS['encrypt_messages']` is set, each
body first passes through `EncryptionService.encrypt_message`, which itself
persists an extra content+metadata pair. `e1 t1 e2 t2` are the successive
`datetime.utcnow()` values drawn at lines 146/161 and 168/183. -/
def save_dialogue_messages (cfg : Config) (pseudonym_id : String)
    (user_message bot_response : String) (e1 t1 e2 t2 : Int) (db : DB) : DB :=
  let stepU : Content × DB :=
    if cfg.encrypt_messages_setting then
      encrypt_message cfg user_message pseudonym_id e1 db
    else (Content.plain user_message, db)
  let db1 := stepU.2
  let user_content : DialogueContentRow := ⟨db1.nextContentId, stepU.1⟩
  let user_meta : DialogueMetadata :=
    ⟨pseudonym_id, "user", "hash_placeholder", t1, user_content.id⟩
  let db2 := { db1 with contents := db1.contents ++ [user_content],
                        metas := db1.metas ++ [user_meta],
                        nextContentId := db1.nextContentId + 1 }
  let stepB : Content × DB :=
    if cfg.encrypt_messages_setting then
      encrypt_message cfg bot_response pseudonym_id e2 db2
    else (Content.plain bot_response, db2)
  let db3 := stepB.2
  let bot_content : DialogueContentRow := ⟨db3.nextContentId, stepB.1⟩
  let bot_meta : DialogueMetadata :=
    ⟨pseudonym_id, "assistant", "hash_placeholder", t2, bot_content.id⟩
  { db3 with contents := db3.contents ++ [bot_content],
             metas := db3.metas ++ [bot_meta],
             nextContentId := db3.nextContentId + 1 }

/-- The context-window fetch of `ClaudeService.get_consultation`
(claude_service.py lines 33-45): fetch up to `limit` most recent messages
newest-first via `get_messages_by_pseudonym`, then
`context_messages.reverse()` back to chronological order. -/
def getContextWindow (cfg : Config) (pseudonym_id : String) (limit : Nat)
    (now : Int) (db : DB) : List MessageOut × DB :=
  let fetched := get_messages_by_pseudonym cfg pseudonym_id none none limit now db
  (fetched.1.reverse, fetched.2)

/-- `ClaudeService.get_consultation` (claude_service.py lines 22-135).
Checks the input length; resolves the pseudonym; fetches and reverses the
context window; builds the message list for the LLM; calls the external LLM
(`llm`, a function of the sent messages); on failure returns the mapped error
string without persisting anything; on success truncates to
`MAX_OUTPUT_CHARS`, saves both sides of the exchange via
`_save_dialogue_messages` and logs a `consultation` action. -/
def get_consultation (cfg : Config)
    (llm : List (String × Content) → LlmResult)
    (user_id : Int) (user_message : String)
    (now e1 t1 e2 t2 : Int) (db : DB) : String × DB :=
  if user_message.length > cfg.max_input_chars then
    ("Пожалуйста, сократите сообщение до " ++ toString cfg.max_input_chars
       ++ " символов.",
     log_action user_id "error" now db)
  else
    let stepP := ensure_pseudonym cfg false user_id db
    let pseudonym_id := stepP.1
    let stepC := getContextWindow cfg pseudonym_id cfg.max_context_messages now stepP.2
    let context_messages := stepC.1
    let db1 := stepC.2
    let claude_messages :=
      context_messages.map (fun m => (m.role, m.content))
        ++ [("user", Content.plain user_message)]
    match llm claude_messages with
    | LlmResult.apiError details =>
        (handle_api_error details, log_action user_id "api_error" now db1)
    | LlmResult.emptyResponse =>
        ("Не удалось получить ответ. Пожалуйста, попробуйте еще раз.",
         log_action user_id "error" now db1)
    | LlmResult.invalidFormat =>
        ("Получен некорректный формат ответа. Пожалуйста, попробуйте еще раз.",
         log_action user_id "error" now db1)
    | LlmResult.success text0 =>
        let response_text :=
          if text0.length > cfg.max_output_chars then
            (text0.take cfg.max_output_chars) ++ "..."
          else text0
        let db2 := save_dialogue_messages cfg pseudonym_id user_message
          response_text e1 t1 e2 t2 db1
        (response_text, log_action user_id "consultation" now db2)

/-- The inner-join/group-by/having condition of
`DataRetentionService._anonymize_inactive_users` (data_retention_service.py
lines 126-132): the pseudonym joins at least one `UserAction` on `user_id`
and `max(created_at) < inactivity_threshold`. A pseudonym with `user_id`
NULL joins nothing and is never selected. -/
def is_inactive (db : DB) (threshold : Int) (p : UserPseudonym) : Bool :=
  let acts := db.actions.filter (fun a => p.user_id == some a.user_id)
  !acts.isEmpty && acts.all (fun a => decide (a.created_at < threshold))

/-- `DataRetentionService._anonymize_inactive_users` (lines 110-148): nulls
`user_id` on every inactive pseudonym and returns the count. -/
def anonymize_inactive_users (cfg : Config) (current_time : Int) (db : DB) :
    Nat × DB :=
  let threshold := current_time - cfg.inactive_user_anonymization_days * 86400
  ((db.pseudonyms.filter (is_inactive db threshold)).length,
   { db with pseudonyms := db.pseudonyms.map (fun p =>
       if is_inactive db threshold p then { p with user_id := none } else p) })

/-- `DataRetentionService._delete_old_messages` (data_retention_service.py
lines 150-189): deletes every `DialogueMetadata` row with
`timestamp < current_time - timedelta(days=message_retention_days)` together
with its `DialogueContent` row, and returns the count. -/
def delete_old_messages (cfg : Config) (current_time : Int) (db : DB) :
    Nat × DB :=
  let message_threshold := current_time - cfg.message_retention_days * 86400
  let old := db.metas.filter (fun m => decide (m.timestamp < message_threshold))
  (old.length,
   { db with
       metas := db.metas.filter
         (fun m => !(decide (m.timestamp < message_threshold))),
       contents := db.contents.filter
         (fun c => !(old.any (fun m => m.content_id == c.id))) })

/-- An encryption-enabled configuration: master key present, message
encryption and pseudonymization on, defaults from config/settings.py. -/
def cfgEnc : Config := ⟨some "mk", 100000, true, true, 4000, 4096, 30, 90, 365, 365⟩

/-- A misconfigured deployment: `ENCRYPT_MESSAGES=True` is requested but
`ENCRYPTION_MASTER_KEY` is unset. -/
def cfgNoKey : Config := ⟨none, 100000, true, true, 4000, 4096, 30, 90, 365, 365⟩

/-- A plaintext-mode configuration: encryption disabled by the
`ENCRYPT_MESSAGES` setting, pseudonymization on. -/
def cfgPlain : Config := ⟨some "mk", 100000, false, true, 4000, 4096, 30, 90, 365, 365⟩

/-- The empty database. -/
def db0 : DB := ⟨[], [], [], [], [], 0, 0, 0⟩

/-- A database with one pseudonym linked to user 7 and no key row yet. -/
def dbLinked : DB := ⟨[⟨some 7, "pid"⟩], [], [], [], [], 0, 0, 0⟩

/-- A database with one linked pseudonym and its persisted encryption-key
salt. -/
def dbKeyed : DB := ⟨[⟨some 7, "pid"⟩], [⟨7, 0, 5⟩], [], [], [], 0, 0, 0⟩

/-- A pseudonym's dialogue of three messages m1(user), m2(assistant),
m3(user), appended in that order with the given timestamps. -/
def dbC6 (pid s1 s2 s3 : String) (ts1 ts2 ts3 : Int) : DB :=
  ⟨[⟨some 42, pid⟩], [],
   [⟨pid, "user", "h1", ts1, 1⟩, ⟨pid, "assistant", "h2", ts2, 2⟩,
    ⟨pid, "user", "h3", ts3, 3⟩],
   [⟨1, Content.plain s1⟩, ⟨2, Content.plain s2⟩, ⟨3, Content.plain s3⟩],
   [], 0, 0, 0⟩

/-- Two stored messages, at timestamps 0 and 100, for the retention boundary. -/
def dbRet : DB :=
  ⟨[], [], [⟨"pid", "user", "ha", 0, 1⟩, ⟨"pid", "user", "hb", 100, 2⟩],
   [⟨1, Content.plain "a"⟩, ⟨2, Content.plain "b"⟩], [], 0, 0, 0⟩

/-- A linked pseudonym "X" of user 42 whose last action is old enough to be
anonymized, with one stored message under "X". -/
def dbAnon : DB :=
  ⟨[⟨some 42, "X"⟩], [], [⟨"X", "user", "h", 5, 1⟩], [⟨1, Content.plain "a"⟩],
   [⟨42, "message", 10⟩], 0, 3, 0⟩

/-- `List.find?` skips a block in which nothing matches. -/
theorem find_append_none {α : Type} (p : α → Bool) (l₁ l₂ : List α)
    (h : l₁.find? p = none) : (l₁ ++ l₂).find? p = l₂.find? p := by
  induction l₁ with
  | nil => simp
  | cons x xs ih =>
      rw [List.find?_eq_none] at h
      have hx : ¬ p x = true := h x (by simp)
      rw [List.cons_append, List.find?_cons_of_neg _ hx]
      exact ih (List.find?_eq_none.mpr (fun a ha => h a (by simp [ha])))

/-- `_derive_encryption_key` never touches the pseudonym table. -/
theorem derive_pseudonyms (cfg : Config) (pid : String) (db : DB) :
    (derive_encryption_key cfg pid db).2.pseudonyms = db.pseudonyms := by
  unfold derive_encryption_key
  repeat' split
  all_goals rfl

/-- `_derive_encryption_key` never touches the dialogue metadata table. -/
theorem derive_metas (cfg : Config) (pid : String) (db : DB) :
    (derive_encryption_key cfg pid db).2.metas = db.metas := by
  unfold derive_encryption_key
  repeat' split
  all_goals rfl

/-- `_derive_encryption_key` never touches the dialogue content table. -/
theorem derive_contents (cfg : Config) (pid : String) (db : DB) :
    (derive_encryption_key cfg pid db).2.contents = db.contents := by
  unfold derive_encryption_key
  repeat' split
  all_goals rfl

/-- With a master key configured, `_derive_encryption_key` always returns a
key. -/
theorem derive_fst_isSome (cfg : Config) (mk : String) (pid : String) (db : DB)
    (h : cfg.masterKey = some mk) :
    (derive_encryption_key cfg pid db).1.isSome := by
  unfold derive_encryption_key
  rw [h]
  repeat' split
  all_goals first
  | rfl
  | simp_all

/-- `decrypt_message` may create a key row but never changes metadata,
contents or pseudonyms. -/
theorem decrypt_db_fields (cfg : Config) (c : Content) (pid : String) (db : DB) :
    (decrypt_message cfg c pid db).2.metas = db.metas ∧
    (decrypt_message cfg c pid db).2.contents = db.contents ∧
    (decrypt_message cfg c pid db).2.pseudonyms = db.pseudonyms := by
  unfold decrypt_message
  split
  · exact ⟨rfl, rfl, rfl⟩
  · split
    next db1 heq =>
        have h1 := derive_metas cfg pid db
        have h2 := derive_contents cfg pid db
        have h3 := derive_pseudonyms cfg pid db
        rw [heq] at h1 h2 h3
        exact ⟨h1, h2, h3⟩
    next key db1 heq =>
        have h1 := derive_metas cfg pid db
        have h2 := derive_contents cfg pid db
        have h3 := derive_pseudonyms cfg pid db
        rw [heq] at h1 h2 h3
        split
        · exact ⟨h1, h2, h3⟩
        · exact ⟨h1, h2, h3⟩

/-- `ensure_pseudonym` never touches the dialogue metadata table. -/
theorem ensure_pseudonym_metas (cfg : Config) (se : Bool) (uid : Int) (db : DB) :
    (ensure_pseudonym cfg se uid db).2.metas = db.metas := by
  unfold ensure_pseudonym
  repeat' split
  all_goals rfl

/-- C2: the claim says that on a storage error `ensure_pseudonym` propagates a
`StorageError` and never falls back to the stringified raw user id while
pseudonymization is enabled. Counterexample: with pseudonymization enabled, a
storage error during the pseudonym query makes `ensure_pseudonym 42` return
the raw id string `str(42)` (the `except` handler, lines 95-98). -/
theorem C2_counterexample :
    cfgEnc.enable_pseudonymization = true ∧
    (ensure_pseudonym cfgEnc true 42 db0).1 = toString (42 : Int) :=
  ⟨rfl, rfl⟩

/-- C2 (amended): on a storage error `ensure_pseudonym` catches the exception
and returns the stringified raw user id, even with pseudonymization enabled;
no error is propagated and the database is left unchanged. -/
theorem C2_theorem (cfg : Config) (uid : Int) (db : DB)
    (hen : cfg.enable_pseudonymization = true) :
    ensure_pseudonym cfg true uid db = (toString uid, db) := by
  unfold ensure_pseudonym
  simp [hen]

/-- Witness for C2 at user id 42 on the empty database. -/
theorem C2_witness : ensure_pseudonym cfgEnc true 42 db0 = (toString (42 : Int), db0) :=
  C2_theorem cfgEnc 42 db0 rfl

/-- C3: the claim says a ciphertext failing authentication makes
`decrypt_message` return a typed `DecryptionError`, never the undecrypted
input itself. Counterexample: with encryption enabled and a derivable key, a
corrupted ciphertext is returned unchanged (the `except` handler,
lines 292-294). -/
theorem C3_counterexample :
    (decrypt_message cfgEnc (Content.plain "garbage") "pid" dbKeyed).1
      = Content.plain "garbage" := by rfl

/-- C3 (amended): on authentication failure (the Fernet decrypt raises),
`decrypt_message` catches the exception and returns the undecrypted input
unchanged; no typed error is signalled to the caller. -/
theorem C3_theorem (cfg : Config) (mk pid : String) (uid : Int)
    (p : UserPseudonym) (uk : UserEncryptionKey) (c : Content) (db : DB)
    (hmk : cfg.masterKey = some mk)
    (henc : cfg.encrypt_messages_setting = true)
    (hp : db.pseudonyms.find? (fun q => q.pseudonym_id == pid) = some p)
    (hlink : p.user_id = some uid)
    (hk : db.encKeys.find? (fun k => k.user_id == uid) = some uk)
    (hfail : fernetDecrypt (pbkdf2 mk uk.key_salt cfg.key_derivation_iterations) c
      = none) :
    decrypt_message cfg c pid db = (c, db) := by
  have hd : derive_encryption_key cfg pid db
      = (some (pbkdf2 mk uk.key_salt cfg.key_derivation_iterations), db) := by
    simp only [derive_encryption_key, hmk, hp, hlink, hk]
  have hs : service_encrypt_messages cfg = true := by
    simp [service_encrypt_messages, hmk, henc]
  unfold decrypt_message
  simp only [hs, hmk, hd, hfail]
  simp

/-- Witness for C3: a plaintext-shaped (hence unauthenticated) ciphertext is
returned unchanged on the keyed database. -/
theorem C3_witness :
    decrypt_message cfgEnc (Content.plain "garbage") "pid" dbKeyed
      = (Content.plain "garbage", dbKeyed) :=
  C3_theorem cfgEnc "mk" "pid" 7 ⟨some 7, "pid"⟩ ⟨7, 0, 5⟩
    (Content.plain "garbage") dbKeyed rfl rfl rfl rfl rfl rfl

/-- C4: the claim says a missing master secret must signal "encryption
unavailable" and writes may proceed in plaintext only under an explicit
fallback flag. Counterexample: with `ENCRYPT_MESSAGES=True` but no master
key, `encrypt_message` silently returns the plaintext and
`_save_dialogue_messages` persists both messages in plaintext with no error. -/
theorem C4_counterexample :
    cfgNoKey.encrypt_messages_setting = true ∧
    encrypt_message cfgNoKey "secret" "pid" 0 db0 = (Content.plain "secret", db0) ∧
    (save_dialogue_messages cfgNoKey "pid" "secret" "reply" 1 2 3 4 db0).contents.map
        (fun c => c.encrypted_content)
      = [Content.plain "secret", Content.plain "reply"] :=
  ⟨rfl, rfl, rfl⟩

/-- C4 (amended): when the master secret is absent the service only logs a
warning and disables encryption; `encrypt_message` degrades to the identity
and dialogue writes proceed in plaintext regardless of any fallback flag. -/
theorem C4_theorem (cfg : Config) (pid u b : String) (ts e1 t1 e2 t2 : Int)
    (db : DB) (hmk : cfg.masterKey = none) :
    encrypt_message cfg u pid ts db = (Content.plain u, db) ∧
    (save_dialogue_messages cfg pid u b e1 t1 e2 t2 db).contents.map
        (fun c => c.encrypted_content)
      = db.contents.map (fun c => c.encrypted_content)
        ++ [Content.plain u, Content.plain b] := by
  have hs : service_encrypt_messages cfg = false := by
    simp [service_encrypt_messages, hmk]
  have he : ∀ (m : String) (t : Int) (d : DB),
      encrypt_message cfg m pid t d = (Content.plain m, d) := by
    intro m t d
    unfold encrypt_message
    simp [hs, hmk]
  refine ⟨he u ts db, ?_⟩
  unfold save_dialogue_messages
  by_cases hset : cfg.encrypt_messages_setting
  · simp [hset, he]
  · simp [hset]

/-- Witness for C4 on the empty database with the keyless configuration. -/
theorem C4_witness :
    encrypt_message cfgNoKey "u" "pid" 0 db0 = (Content.plain "u", db0) ∧
    (save_dialogue_messages cfgNoKey "pid" "u" "b" 1 2 3 4 db0).contents.map
        (fun c => c.encrypted_content)
      = db0.contents.map (fun c => c.encrypted_content)
        ++ [Content.plain "u", Content.plain "b"] :=
  C4_theorem cfgNoKey "pid" "u" "b" 0 1 2 3 4 db0 rfl

/-- C5: round-trip encryption. With encryption enabled, a master secret
configured and the pseudonym still linked to a real user id,
`decrypt_message (encrypt_message P X) X = P`: the salt persisted (or created)
during encryption makes key derivation deterministic, so the message is
recovered exactly. -/
theorem C5_theorem (cfg : Config) (mk msg pid : String) (uid : Int)
    (p : UserPseudonym) (ts : Int) (db : DB)
    (hmk : cfg.masterKey = some mk)
    (henc : cfg.encrypt_messages_setting = true)
    (hp : db.pseudonyms.find? (fun q => q.pseudonym_id == pid) = some p)
    (hlink : p.user_id = some uid) :
    (decrypt_message cfg (encrypt_message cfg msg pid ts db).1 pid
        (encrypt_message cfg msg pid ts db).2).1 = Content.plain msg := by
  have hs : service_encrypt_messages cfg = true := by
    simp [service_encrypt_messages, hmk, henc]
  cases hk : db.encKeys.find? (fun k => k.user_id == uid) with
  | some uk =>
      have hd : derive_encryption_key cfg pid db
          = (some (pbkdf2 mk uk.key_salt cfg.key_derivation_iterations), db) := by
        simp only [derive_encryption_key, hmk, hp, hlink, hk]
      have he : encrypt_message cfg msg pid ts db
          = (Content.token (pbkdf2 mk uk.key_salt cfg.key_derivation_iterations) msg,
             { db with
                 contents := db.contents ++ [⟨db.nextContentId,
                   Content.token (pbkdf2 mk uk.key_salt cfg.key_derivation_iterations) msg⟩],
                 metas := db.metas
                   ++ [⟨pid, "user", sha256b64 msg, ts, db.nextContentId⟩],
                 nextContentId := db.nextContentId + 1 }) := by
        simp only [encrypt_message, hs, hmk, hd]
        simp
      rw [he]
      have hd2 : derive_encryption_key cfg pid
          ({ db with
               contents := db.contents ++ [⟨db.nextContentId,
                 Content.token (pbkdf2 mk uk.key_salt cfg.key_derivation_iterations) msg⟩],
               metas := db.metas
                 ++ [⟨pid, "user", sha256b64 msg, ts, db.nextContentId⟩],
               nextContentId := db.nextContentId + 1 })
          = (some (pbkdf2 mk uk.key_salt cfg.key_derivation_iterations),
             { db with
                 contents := db.contents ++ [⟨db.nextContentId,
                   Content.token (pbkdf2 mk uk.key_salt cfg.key_derivation_iterations) msg⟩],
                 metas := db.metas
                   ++ [⟨pid, "user", sha256b64 msg, ts, db.nextContentId⟩],
                 nextContentId := db.nextContentId + 1 }) := by
        simp only [derive_encryption_key, hmk, hp, hlink, hk]
      unfold decrypt_message
      simp only [hs, hmk, hd2]
      simp [fernetDecrypt]
  | none =>
      have hd : derive_encryption_key cfg pid db
          = (some (pbkdf2 mk db.nextSalt cfg.key_derivation_iterations),
             { db with
                 encKeys := db.encKeys ++ [⟨uid,
                   pbkdf2 mk db.nextSalt cfg.key_derivation_iterations, db.nextSalt⟩],
                 nextSalt := db.nextSalt + 1 }) := by
        simp only [derive_encryption_key, hmk, hp, hlink, hk]
      have he : encrypt_message cfg msg pid ts db
          = (Content.token (pbkdf2 mk db.nextSalt cfg.key_derivation_iterations) msg,
             { db with
                 encKeys := db.encKeys ++ [⟨uid,
                   pbkdf2 mk db.nextSalt cfg.key_derivation_iterations, db.nextSalt⟩],
                 nextSalt := db.nextSalt + 1,
                 contents := db.contents ++ [⟨db.nextContentId,
                   Content.token (pbkdf2 mk db.nextSalt cfg.key_derivation_iterations) msg⟩],
                 metas := db.metas
                   ++ [⟨pid, "user", sha256b64 msg, ts, db.nextContentId⟩],
                 nextContentId := db.nextContentId + 1 }) := by
        simp only [encrypt_message, hs, hmk, hd]
        simp
      rw [he]
      have hk2 : (db.encKeys ++ [(⟨uid,
            pbkdf2 mk db.nextSalt cfg.key_derivation_iterations,
            db.nextSalt⟩ : UserEncryptionKey)]).find? (fun k => k.user_id == uid)
          = some ⟨uid, pbkdf2 mk db.nextSalt cfg.key_derivation_iterations,
              db.nextSalt⟩ := by
        rw [find_append_none _ _ _ hk]
        simp
      unfold decrypt_message
      simp only [hs, hmk]
      have hd2 : derive_encryption_key cfg pid
          ({ db with
               encKeys := db.encKeys ++ [⟨uid,
                 pbkdf2 mk db.nextSalt cfg.key_derivation_iterations, db.nextSalt⟩],
               nextSalt := db.nextSalt + 1,
               contents := db.contents ++ [⟨db.nextContentId,
                 Content.token (pbkdf2 mk db.nextSalt cfg.key_derivation_iterations) msg⟩],
               metas := db.metas
                 ++ [⟨pid, "user", sha256b64 msg, ts, db.nextContentId⟩],
               nextContentId := db.nextContentId + 1 })
          = (some (pbkdf2 mk db.nextSalt cfg.key_derivation_iterations),
             { db with
                 encKeys := db.encKeys ++ [⟨uid,
                   pbkdf2 mk db.nextSalt cfg.key_derivation_iterations, db.nextSalt⟩],
                 nextSalt := db.nextSalt + 1,
                 contents := db.contents ++ [⟨db.nextContentId,
                   Content.token (pbkdf2 mk db.nextSalt cfg.key_derivation_iterations) msg⟩],
                 metas := db.metas
                   ++ [⟨pid, "user", sha256b64 msg, ts, db.nextContentId⟩],
                 nextContentId := db.nextContentId + 1 }) := by
        simp only [derive_encryption_key, hmk, hp, hlink, hk2]
      simp only [hd2]
      simp [fernetDecrypt]

/-- Witness for C5: the message "hello" round-trips for the linked pseudonym
"pid" on a database with no key row yet. -/
theorem C5_witness :
    (decrypt_message cfgEnc (encrypt_message cfgEnc "hello" "pid" 5 dbLinked).1
        "pid" (encrypt_message cfgEnc "hello" "pid" 5 dbLinked).2).1
      = Content.plain "hello" :=
  C5_theorem cfgEnc "mk" "hello" "pid" 7 ⟨some 7, "pid"⟩ 5 dbLinked rfl rfl rfl rfl

/-- C9: retention boundary. In a retention run at `current_time`, exactly the
messages with `timestamp < current_time - message_retention_days` are deleted
(metadata together with content) and every message at or after the cutoff is
retained; the boundary is a strict less-than, so a message at the exact
cutoff instant is retained. -/
theorem C9_theorem (cfg : Config) (now : Int) (db : DB) :
    (∀ m : DialogueMetadata,
        m ∈ (delete_old_messages cfg now db).2.metas
          ↔ (m ∈ db.metas
              ∧ now - cfg.message_retention_days * 86400 ≤ m.timestamp)) ∧
    (delete_old_messages cfg now db).1
        = (db.metas.filter (fun m =>
            decide (m.timestamp < now - cfg.message_retention_days * 86400))).length ∧
    (∀ c : DialogueContentRow,
        c ∈ (delete_old_messages cfg now db).2.contents
          ↔ (c ∈ db.contents ∧ ∀ m ∈ db.metas,
              m.timestamp < now - cfg.message_retention_days * 86400
                → m.content_id ≠ c.id)) := by
  refine ⟨?_, rfl, ?_⟩
  · intro m
    unfold delete_old_messages
    simp [List.mem_filter, not_lt]
  · intro c
    unfold delete_old_messages
    simp only [List.mem_filter, Bool.not_eq_true', List.any_eq_false,
      decide_eq_true_eq, beq_iff_eq]
    constructor
    · rintro ⟨hc, hall⟩
      exact ⟨hc, fun m hm hlt => hall m ⟨hm, hlt⟩⟩
    · rintro ⟨hc, hall⟩
      exact ⟨hc, fun m hm => hall m hm.1 hm.2⟩

/-- Witness for C9: with a 90-day retention and a run 100 seconds after the
cutoff epoch, the message at timestamp 100 (exactly the cutoff) is retained
and exactly one older message is deleted. -/
theorem C9_witness :
    ((⟨"pid", "user", "hb", 100, 2⟩ : DialogueMetadata)
        ∈ (delete_old_messages cfgEnc (90 * 86400 + 100) dbRet).2.metas) ∧
    (delete_old_messages cfgEnc (90 * 86400 + 100) dbRet).1 = 1 := by
  have h := C9_theorem cfgEnc (90 * 86400 + 100) dbRet
  refine ⟨(h.1 _).mpr ⟨by decide, by decide⟩, ?_⟩
  rw [h.2.1]
  decide

/-- Membership in `insertDesc` is membership in the inserted element or the
list. -/
theorem mem_insertDesc {α : Type} (key : α → Int) (m a : α) (l : List α) :
    a ∈ insertDesc key m l ↔ a = m ∨ a ∈ l := by
  induction l with
  | nil => simp [insertDesc]
  | cons x xs ih =>
      unfold insertDesc
      split
      · simp [List.mem_cons]
      · simp [List.mem_cons, ih]
        tauto

/-- `sortDesc` is a permutation in the membership sense. -/
theorem mem_sortDesc {α : Type} (key : α → Int) (a : α) (l : List α) :
    a ∈ sortDesc key l ↔ a ∈ l := by
  induction l with
  | nil => simp [sortDesc]
  | cons x xs ih => simp [sortDesc, mem_insertDesc, ih]

/-- The decryption loop emits one element per fetched row. -/
theorem process_rows_length (cfg : Config) (pid : String) :
    ∀ (rows : List (DialogueMetadata × DialogueContentRow)) (db : DB),
      (process_rows cfg pid rows db).1.length = rows.length := by
  intro rows
  induction rows with
  | nil => intro db; rfl
  | cons mc rest ih =>
      intro db
      obtain ⟨m, c⟩ := mc
      unfold process_rows
      simp [ih]

/-- Every emitted message carries the role, timestamp and hash of one of the
fetched rows. -/
theorem process_rows_mem (cfg : Config) (pid : String) :
    ∀ (rows : List (DialogueMetadata × DialogueContentRow)) (db : DB)
      (o : MessageOut), o ∈ (process_rows cfg pid rows db).1 →
      ∃ mc ∈ rows, o.role = mc.1.role ∧ o.timestamp = mc.1.timestamp
        ∧ o.message_hash = mc.1.message_hash := by
  intro rows
  induction rows with
  | nil =>
      intro db o h
      simp [process_rows] at h
  | cons mc rest ih =>
      intro db o h
      obtain ⟨m, c⟩ := mc
      unfold process_rows at h
      simp only [List.mem_cons] at h
      cases h with
      | inl h => exact ⟨(m, c), by simp, by simp [h]⟩
      | inr h =>
          obtain ⟨mc', hmem, h1, h2, h3⟩ := ih _ o h
          exact ⟨mc', by simp [hmem], h1, h2, h3⟩

/-- C10: without explicit dates, `get_messages_by_pseudonym` defaults the
window to the last 30 days: every returned message has a timestamp between
`now - 30 days` and `now` (older stored messages are silently excluded, even
though retention keeps them for 90 days), and at most `limit` messages are
returned. -/
theorem C10_theorem (cfg : Config) (pid : String) (limit : Nat) (now : Int)
    (db : DB) :
    (get_messages_by_pseudonym cfg pid none none limit now db).1.length ≤ limit ∧
    ∀ o ∈ (get_messages_by_pseudonym cfg pid none none limit now db).1,
      now - 30 * 86400 ≤ o.timestamp ∧ o.timestamp ≤ now := by
  unfold get_messages_by_pseudonym
  constructor
  · rw [process_rows_length]
    exact List.length_take_le _ _
  · intro o ho
    obtain ⟨mc, hmem, hrole, hts, hhash⟩ := process_rows_mem _ _ _ _ _ ho
    have hmem2 := List.mem_of_mem_take hmem
    rw [mem_sortDesc] at hmem2
    rw [List.mem_filterMap] at hmem2
    obtain ⟨m, hm, hf⟩ := hmem2
    simp only [Option.getD_none, Option.getD_some] at hf
    by_cases hcond : (m.pseudonym_id == pid
        && decide (now - 30 * 86400 ≤ m.timestamp)
        && decide (m.timestamp ≤ now)) = true
    · have hfst : mc.1 = m := by
        rw [if_pos hcond] at hf
        obtain ⟨c, hc, hmc⟩ := Option.map_eq_some'.mp hf
        rw [← hmc]
      rw [hts, hfst]
      have h1 := hcond
      simp only [Bool.and_eq_true, decide_eq_true_eq] at h1
      exact ⟨h1.1.2, h1.2⟩
    · rw [if_neg hcond] at hf
      exact absurd hf (by simp)

/-- Witness for C10: on the three-message dialogue with `limit = 2`, at most
two messages come back and the returned assistant message at timestamp 20
lies inside the default 30-day window around `now = 100`. -/
theorem C10_witness :
    (get_messages_by_pseudonym cfgPlain "pid" none none 2 100
        (dbC6 "pid" "m1" "m2" "m3" 10 20 30)).1.length ≤ 2 ∧
    ((100 : Int) - 30 * 86400 ≤ 20 ∧ (20 : Int) ≤ 100) := by
  refine ⟨(C10_theorem cfgPlain "pid" 2 100 _).1, ?_⟩
  have h := (C10_theorem cfgPlain "pid" 2 100
      (dbC6 "pid" "m1" "m2" "m3" 10 20 30)).2
    ⟨"assistant", Content.plain "m2", 20, "h2"⟩ (by decide)
  exact h

/-- C8: unlink irreversibility. If pseudonym `p` is the unique row linked to
user `uid` and is inactive at the anonymization threshold, then after the
anonymization pass nulls its `user_id`, the next `ensure_pseudonym uid` call
issues a fresh pseudonym id different from `p`'s, while the dialogue messages
stored under the old pseudonym id are untouched (still queryable by that id,
no longer reachable from `uid`). -/
theorem C8_theorem (cfg : Config) (uid : Int) (p : UserPseudonym) (now : Int)
    (db : DB)
    (hen : cfg.enable_pseudonymization = true)
    (hp : p ∈ db.pseudonyms) (hlink : p.user_id = some uid)
    (huniq : ∀ q ∈ db.pseudonyms, q.user_id = some uid → q = p)
    (hinact : is_inactive db
      (now - cfg.inactive_user_anonymization_days * 86400) p = true)
    (hfresh : uuidStr db.nextUuid ≠ p.pseudonym_id) :
    (ensure_pseudonym cfg false uid
        (anonymize_inactive_users cfg now db).2).1 ≠ p.pseudonym_id ∧
    (ensure_pseudonym cfg false uid
        (anonymize_inactive_users cfg now db).2).2.metas = db.metas := by
  have hnone : ((anonymize_inactive_users cfg now db).2).pseudonyms.find?
      (fun q => q.user_id == some uid) = none := by
    rw [List.find?_eq_none]
    intro q hq
    unfold anonymize_inactive_users at hq
    simp only [List.mem_map] at hq
    obtain ⟨q0, hq0, hqeq⟩ := hq
    by_cases hin : is_inactive db
        (now - cfg.inactive_user_anonymization_days * 86400) q0 = true
    · rw [← hqeq, if_pos hin]
      simp
    · rw [← hqeq, if_neg hin]
      intro habs
      have huid : q0.user_id = some uid := by simpa using habs
      have hq0p := huniq q0 hq0 huid
      rw [hq0p] at hin
      exact hin hinact
  constructor
  · unfold ensure_pseudonym
    simp [hen, hnone]
    exact hfresh
  · rw [ensure_pseudonym_metas]
    rfl

/-- Witness for C8: after anonymizing the inactive user 42 (pseudonym "X"),
`ensure_pseudonym 42` issues a different pseudonym id and the message stored
under "X" is untouched. -/
theorem C8_witness :
    (ensure_pseudonym cfgEnc false 42
        (anonymize_inactive_users cfgEnc (400 * 86400) dbAnon).2).1 ≠ "X" ∧
    (ensure_pseudonym cfgEnc false 42
        (anonymize_inactive_users cfgEnc (400 * 86400) dbAnon).2).2.metas
      = dbAnon.metas :=
  C8_theorem cfgEnc 42 ⟨some 42, "X"⟩ (400 * 86400) dbAnon rfl
    (by decide) rfl (by decide) (by decide) (by decide)

/-- C6: ordering correctness. For any pseudonym with messages m1(user),
m2(assistant), m3(user) appended in that order (strictly increasing
timestamps inside the default window), the context-window fetch queries them
newest-first and reverses, so the orchestrator receives [m1, m2, m3] in
chronological order, never reversed. -/
theorem C6_theorem (pid s1 s2 s3 : String) (ts1 ts2 ts3 now : Int)
    (h12 : ts1 < ts2) (h23 : ts2 < ts3)
    (hlo : now - 30 * 86400 ≤ ts1) (hhi : ts3 ≤ now) :
    (getContextWindow cfgPlain pid 3 now (dbC6 pid s1 s2 s3 ts1 ts2 ts3)).1
      = [⟨"user", Content.plain s1, ts1, "h1"⟩,
         ⟨"assistant", Content.plain s2, ts2, "h2"⟩,
         ⟨"user", Content.plain s3, ts3, "h3"⟩] := by
  have hts2lo : now - 30 * 86400 ≤ ts2 := by omega
  have hts3lo : now - 30 * 86400 ≤ ts3 := by omega
  have hts1hi : ts1 ≤ now := by omega
  have hts2hi : ts2 ≤ now := by omega
  have hn32 : ¬ (ts3 < ts2) := by omega
  have hn31 : ¬ (ts3 < ts1) := by omega
  have hn21 : ¬ (ts2 < ts1) := by omega
  have hs : service_encrypt_messages cfgPlain = false := rfl
  have hb1 : now ≤ ts1 + 2592000 := by omega
  have hb2 : now ≤ ts2 + 2592000 := by omega
  have hb3 : now ≤ ts3 + 2592000 := by omega
  unfold getContextWindow get_messages_by_pseudonym dbC6
  simp [sortDesc, insertDesc, process_rows, hs, List.find?, List.filterMap_cons,
    hb1, hb2, hb3, hhi, hts1hi, hts2hi, hn32, hn31, hn21]

/-- Witness for C6 at timestamps 10 < 20 < 30 with `now = 100`. -/
theorem C6_witness :
    (getContextWindow cfgPlain "p" 3 100 (dbC6 "p" "a" "b" "c" 10 20 30)).1
      = [⟨"user", Content.plain "a", 10, "h1"⟩,
         ⟨"assistant", Content.plain "b", 20, "h2"⟩,
         ⟨"user", Content.plain "c", 30, "h3"⟩] :=
  C6_theorem "p" "a" "b" "c" 10 20 30 100 (by decide) (by decide)
    (by decide) (by decide)

/-- The decryption loop never changes the dialogue metadata table. -/
theorem process_rows_metas (cfg : Config) (pid : String) :
    ∀ (rows : List (DialogueMetadata × DialogueContentRow)) (db : DB),
      (process_rows cfg pid rows db).2.metas = db.metas := by
  intro rows
  induction rows with
  | nil => intro db; rfl
  | cons mc rest ih =>
      intro db
      obtain ⟨m, c⟩ := mc
      unfold process_rows
      by_cases hs : service_encrypt_messages cfg = true
      · simp only [hs, if_true]
        rw [ih]
        exact (decrypt_db_fields cfg c.encrypted_content pid db).1
      · simp only [hs]
        rw [ih]
        simp

/-- The context-window query never changes the dialogue metadata table. -/
theorem get_messages_metas (cfg : Config) (pid : String)
    (sd ed : Option Int) (lim : Nat) (now : Int) (db : DB) :
    (get_messages_by_pseudonym cfg pid sd ed lim now db).2.metas = db.metas := by
  unfold get_messages_by_pseudonym
  apply process_rows_metas

/-- The orchestrator's context fetch never changes the metadata table. -/
theorem getContextWindow_metas (cfg : Config) (pid : String) (lim : Nat)
    (now : Int) (db : DB) :
    (getContextWindow cfg pid lim now db).2.metas = db.metas := by
  unfold getContextWindow
  apply get_messages_metas

/-- `encrypt_message` appends exactly one metadata row, with role `'user'`,
when service-level encryption is on, and none otherwise. -/
theorem encrypt_message_roles (cfg : Config) (msg pid : String) (ts : Int)
    (db : DB) :
    (encrypt_message cfg msg pid ts db).2.metas.map (fun m => m.role)
      = db.metas.map (fun m => m.role)
        ++ (if service_encrypt_messages cfg then ["user"] else []) := by
  cases hmk : cfg.masterKey with
  | none =>
      have hs : service_encrypt_messages cfg = false := by
        simp [service_encrypt_messages, hmk]
      unfold encrypt_message
      simp [hs, hmk]
  | some mk =>
      by_cases hset : cfg.encrypt_messages_setting = true
      · have hs : service_encrypt_messages cfg = true := by
          simp [service_encrypt_messages, hmk, hset]
        unfold encrypt_message
        rcases hd : derive_encryption_key cfg pid db with ⟨fst, db1⟩
        cases fst with
        | none =>
            have hsome := derive_fst_isSome cfg mk pid db hmk
            rw [hd] at hsome
            simp at hsome
        | some key =>
            have hm := derive_metas cfg pid db
            rw [hd] at hm
            simp at hm
            simp [hs, hmk, hd, hm]
      · have hs : service_encrypt_messages cfg = false := by
          simp [service_encrypt_messages, hmk, hset]
        unfold encrypt_message
        simp [hs, hmk]

/-- `encrypt_message` appends exactly one content row when service-level
encryption is on, and none otherwise. -/
theorem encrypt_message_contents_len (cfg : Config) (msg pid : String)
    (ts : Int) (db : DB) :
    (encrypt_message cfg msg pid ts db).2.contents.length
      = db.contents.length
        + (if service_encrypt_messages cfg then 1 else 0) := by
  cases hmk : cfg.masterKey with
  | none =>
      have hs : service_encrypt_messages cfg = false := by
        simp [service_encrypt_messages, hmk]
      unfold encrypt_message
      simp [hs, hmk]
  | some mk =>
      by_cases hset : cfg.encrypt_messages_setting = true
      · have hs : service_encrypt_messages cfg = true := by
          simp [service_encrypt_messages, hmk, hset]
        unfold encrypt_message
        rcases hd : derive_encryption_key cfg pid db with ⟨fst, db1⟩
        cases fst with
        | none =>
            have hsome := derive_fst_isSome cfg mk pid db hmk
            rw [hd] at hsome
            simp at hsome
        | some key =>
            have hc := derive_contents cfg pid db
            rw [hd] at hc
            simp at hc
            simp [hs, hmk, hd, hc]
      · have hs : service_encrypt_messages cfg = false := by
          simp [service_encrypt_messages, hmk, hset]
        unfold encrypt_message
        simp [hs, hmk]

/-- Role pattern of one saved exchange: with service-level encryption on,
`_save_dialogue_messages` appends four metadata rows with roles
user/user/user/assistant (the two extra `'user'` rows are the side effect of
`encrypt_message`, one of them holding the assistant reply); with encryption
off it appends the two rows user/assistant. -/
theorem save_dialogue_roles (cfg : Config) (pid u b : String)
    (e1 t1 e2 t2 : Int) (db : DB) :
    (save_dialogue_messages cfg pid u b e1 t1 e2 t2 db).metas.map
        (fun m => m.role)
      = db.metas.map (fun m => m.role)
        ++ (if service_encrypt_messages cfg then
              ["user", "user", "user", "assistant"]
            else ["user", "assistant"]) := by
  unfold save_dialogue_messages
  by_cases hset : cfg.encrypt_messages_setting = true
  · simp only [hset, if_true]
    simp [List.map_append, encrypt_message_roles]
    by_cases hserv : service_encrypt_messages cfg = true <;> simp [hserv]
  · have hsetf : cfg.encrypt_messages_setting = false := by
      simpa using hset
    have hs : service_encrypt_messages cfg = false := by
      simp [service_encrypt_messages, hsetf]
    simp [hsetf, hs, List.map_append]

/-- Content-row count of one saved exchange: four rows with service-level
encryption on, two with it off. -/
theorem save_dialogue_contents_len (cfg : Config) (pid u b : String)
    (e1 t1 e2 t2 : Int) (db : DB) :
    (save_dialogue_messages cfg pid u b e1 t1 e2 t2 db).contents.length
      = db.contents.length
        + (if service_encrypt_messages cfg then 4 else 2) := by
  unfold save_dialogue_messages
  by_cases hset : cfg.encrypt_messages_setting = true
  · simp only [hset, if_true]
    simp [encrypt_message_contents_len]
    by_cases hserv : service_encrypt_messages cfg = true <;> simp [hserv]
  · have hsetf : cfg.encrypt_messages_setting = false := by
      simpa using hset
    have hs : service_encrypt_messages cfg = false := by
      simp [service_encrypt_messages, hsetf]
    simp [hsetf, hs]

/-- C7: the claim says exactly two dialogue records are created per completed
exchange. Counterexample: one successful exchange with encryption enabled
creates four metadata rows, because `encrypt_message` itself persists an
extra role-`'user'` row for each body it encrypts (including the assistant
reply) in addition to the two rows written by `_save_dialogue_messages`. -/
theorem C7_counterexample :
    (get_consultation cfgEnc (fun _ => LlmResult.success "Hi") 42 "Hello"
        100 101 102 103 104 db0).2.metas.length = 4 ∧
    (get_consultation cfgEnc (fun _ => LlmResult.success "Hi") 42 "Hello"
        100 101 102 103 104 db0).2.metas.length ≠ 2 :=
  ⟨by rfl, by decide⟩

/-- C7 (amended): a completed exchange creates exactly two dialogue records
(roles user then assistant) only when service-level encryption is off; with
encryption on it creates four — the two orchestrator rows plus one extra
role-`'user'` row per `encrypt_message` call, the second of which stores the
assistant reply under role `'user'`. -/
theorem C7_theorem (cfg : Config) (pid u b : String) (e1 t1 e2 t2 : Int)
    (db : DB) :
    (save_dialogue_messages cfg pid u b e1 t1 e2 t2 db).metas.map
        (fun m => m.role)
      = db.metas.map (fun m => m.role)
        ++ (if service_encrypt_messages cfg then
              ["user", "user", "user", "assistant"]
            else ["user", "assistant"]) ∧
    (save_dialogue_messages cfg pid u b e1 t1 e2 t2 db).contents.length
      = db.contents.length
        + (if service_encrypt_messages cfg then 4 else 2) :=
  ⟨save_dialogue_roles cfg pid u b e1 t1 e2 t2 db,
   save_dialogue_contents_len cfg pid u b e1 t1 e2 t2 db⟩

/-- C1: the claim says the user message is persisted before the LLM call, so
a failed call leaves the user message stored without a reply. Counterexample:
a failed LLM call on the empty database leaves the dialogue store empty — the
user message was never persisted, because `get_consultation` only saves via
`_save_dialogue_messages` after a successful response. -/
theorem C1_counterexample :
    (get_consultation cfgEnc (fun _ => LlmResult.apiError "boom") 42 "Hello"
        100 101 102 103 104 db0).2.metas = [] := by rfl

/-- C1 (amended): within one exchange nothing is persisted before the LLM
call: on an LLM failure neither side of the exchange is stored (the metadata
table is unchanged), and on success both sides are persisted together
afterwards, the user-role rows preceding the single assistant row — so the
stored conversation still never contains an assistant turn without its
preceding user turn, but a failed call loses the user message instead of
leaving a dangling user turn. -/
theorem C1_theorem (cfg : Config) (uid : Int) (msg d txt : String)
    (now e1 t1 e2 t2 : Int) (db : DB) :
    (get_consultation cfg (fun _ => LlmResult.apiError d) uid msg
        now e1 t1 e2 t2 db).2.metas = db.metas ∧
    (get_consultation cfg (fun _ => LlmResult.success txt) uid msg
        now e1 t1 e2 t2 db).2.metas.map (fun m => m.role)
      = db.metas.map (fun m => m.role)
        ++ (if msg.length > cfg.max_input_chars then []
            else if service_encrypt_messages cfg then
              ["user", "user", "user", "assistant"]
            else ["user", "assistant"]) := by
  by_cases hlen : msg.length > cfg.max_input_chars
  · constructor
    · unfold get_consultation
      simp [hlen, log_action]
    · unfold get_consultation
      simp [hlen, log_action]
  · constructor
    · unfold get_consultation
      rw [if_neg hlen]
      simp [log_action, getContextWindow_metas, ensure_pseudonym_metas]
    · unfold get_consultation
      rw [if_neg hlen]
      simp [log_action, save_dialogue_roles, getContextWindow_metas,
        ensure_pseudonym_metas, hlen]
